import Mathlib

/-
Verification of the enka-backend cache/coalescing/fallback layer.

The development shallowly embeds src/main.py:
  - PyVal models the Python values that flow through the system (JSON
    scalars, lists, dicts, plus datetime objects, whose presence the source
    acknowledges by serializing with default=str).
  - Blob models the serialized string stored in Redis; dumps models
    json.dumps(v, default=str) and parse models json.loads, at the level of
    the structured value each string denotes.
  - RedisStore models the external store with native per-key expiry
    (SETEX): an entry is readable only while now is within its TTL window.
  - fetchWithRetryPair embeds fetch_with_retry, fetchShowcase embeds
    fetch_showcase (fast path, per-key section, double check, refresh,
    fallback), getIdv embeds the Identity V handler, getEnka the
    /enka/(game)/(uid) route.
  - A labelled transition system CSt/Step embeds the cooperative
    (asyncio) interleaving of several concurrent fetch_showcase calls,
    with one program point per await of the source.
-/

namespace EnkaBackend

/-- Keys of a Python dict as they matter to json.dumps: strings survive,
integer keys are written as their decimal string. -/
inductive PyKey where
  | kint (n : Int)
  | kstr (s : String)
deriving DecidableEq, Repr

/-- Python values flowing through the system: the JSON scalars, lists and
dicts, plus datetime objects (carried with their string rendering), which
model_dump leaves in the payload and json.dumps(default=str) stringifies. -/
inductive PyVal where
  | vnull
  | vbool (b : Bool)
  | vint (n : Int)
  | vstr (s : String)
  | vlist (xs : List PyVal)
  | vdict (kvs : List (PyKey × PyVal))
  | vdatetime (s : String)
deriving Repr

/-- What json.dumps(default=str) does to a dict key. -/
def keyFix : PyKey → PyKey
  | .kint n => .kstr (toString n)
  | .kstr s => .kstr s

mutual

/-- json.loads composed with json.dumps(v, default=str): datetimes come back
as their string rendering, integer dict keys as decimal strings. -/
def jsonRoundTrip : PyVal → PyVal
  | .vnull => .vnull
  | .vbool b => .vbool b
  | .vint n => .vint n
  | .vstr s => .vstr s
  | .vlist xs => .vlist (jrtList xs)
  | .vdict kvs => .vdict (jrtKvs kvs)
  | .vdatetime s => .vstr s

def jrtList : List PyVal → List PyVal
  | [] => []
  | x :: xs => jsonRoundTrip x :: jrtList xs

def jrtKvs : List (PyKey × PyVal) → List (PyKey × PyVal)
  | [] => []
  | (k, v) :: rest => (keyFix k, jsonRoundTrip v) :: jrtKvs rest

end

mutual

/-- A value is JSON-native when it contains no datetime and every dict key
is a string: exactly the values json serialization preserves. -/
def jsonNative : PyVal → Bool
  | .vnull => true
  | .vbool _ => true
  | .vint _ => true
  | .vstr _ => true
  | .vlist xs => jsonNativeList xs
  | .vdict kvs => jsonNativeKvs kvs
  | .vdatetime _ => false

def jsonNativeList : List PyVal → Bool
  | [] => true
  | x :: xs => jsonNative x && jsonNativeList xs

def jsonNativeKvs : List (PyKey × PyVal) → Bool
  | [] => true
  | (k, v) :: rest =>
    (match k with | .kstr _ => true | .kint _ => false)
      && jsonNative v && jsonNativeKvs rest

end

mutual

theorem jsonRoundTrip_id : ∀ v, jsonNative v = true → jsonRoundTrip v = v
  | .vnull, _ => rfl
  | .vbool _, _ => rfl
  | .vint _, _ => rfl
  | .vstr _, _ => rfl
  | .vlist xs, h => by
    simp only [jsonRoundTrip]
    exact congrArg PyVal.vlist (jrtList_id xs (by simpa [jsonNative] using h))
  | .vdict kvs, h => by
    simp only [jsonRoundTrip]
    exact congrArg PyVal.vdict (jrtKvs_id kvs (by simpa [jsonNative] using h))
  | .vdatetime _, h => by simp [jsonNative] at h

theorem jrtList_id : ∀ xs, jsonNativeList xs = true → jrtList xs = xs
  | [], _ => rfl
  | x :: xs, h => by
    simp only [jsonNativeList, Bool.and_eq_true] at h
    simp only [jrtList]
    exact congrArg₂ List.cons (jsonRoundTrip_id x h.1) (jrtList_id xs h.2)

theorem jrtKvs_id :
    ∀ kvs, jsonNativeKvs kvs = true → jrtKvs kvs = kvs
  | [], _ => rfl
  | (k, v) :: rest, h => by
    simp only [jsonNativeKvs, Bool.and_eq_true] at h
    obtain ⟨⟨hk, hv⟩, hrest⟩ := h
    have hkfix : keyFix k = k := by
      cases k with
      | kint n => simp at hk
      | kstr s => rfl
    simp only [jrtKvs, hkfix, jsonRoundTrip_id v hv, jrtKvs_id rest hrest]

end

/-- The serialized string stored in the cache, at the level of the value it
denotes: either the json text of a value, or a corrupt (non-json, nonempty)
string. -/
inductive Blob where
  | ser (v : PyVal)
  | corrupt

/-- json.loads on a stored blob: the denoted value, or failure. -/
def parse : Blob → Option PyVal
  | .ser v => some v
  | .corrupt => none

/-- json.dumps(v, default=str): the stored text denotes the round-tripped
value. -/
def dumps (v : PyVal) : Blob := .ser (jsonRoundTrip v)

/-- One Redis entry as written by SETEX: the blob, the write time and the
TTL in seconds. -/
structure RedisEntry where
  blob : Blob
  wtime : Nat
  ttl : Nat

/-- The external store: Redis with native per-key expiry. -/
def RedisStore : Type := String → Option RedisEntry

/-- GET against Redis: an entry is readable only strictly inside its TTL
window; once the TTL elapses the store treats the key as absent. -/
def redisGet (st : RedisStore) (now : Nat) (key : String) : Option Blob :=
  match st key with
  | some e => if now < e.wtime + e.ttl then some e.blob else none
  | none => none

/-- SETEX key ttl blob at the given time. -/
def redisSetex (st : RedisStore) (now : Nat) (key : String) (ttl : Nat)
    (b : Blob) : RedisStore :=
  fun k => if k = key then some ⟨b, now, ttl⟩ else st k

/-- The store with no entries. -/
def emptyStore : RedisStore := fun _ => none

/-- Errors an upstream client attempt can raise: the distinguished timeout
(enka.errors.APIRequestTimeoutError), any other exception, the KeyError
from indexing client_map with an unknown game, and the TypeError of
raising None (unreachable: the loop always runs). -/
inductive Err where
  | timeout
  | apiErr (s : String)
  | keyError (g : String)
  | noneType
deriving DecidableEq, Repr

/-- str(e) as the handler passes it to HTTPException. -/
def errStr : Err → String
  | .timeout => "APIRequestTimeoutError"
  | .apiErr s => s
  | .keyError g => "'" ++ g ++ "'"
  | .noneType => "NoneType"

/-- RETRY_COUNT of the source. -/
def RETRY_COUNT : Nat := 2

/-- CACHE_TTL of the source: keyspace tag to TTL seconds. -/
def CACHE_TTL : List (String × Nat) := [("gi", 300), ("hsr", 300), ("zzz", 900)]

/-- CACHE_TTL.get(game, 300). -/
def ttlFor (game : String) : Nat := (CACHE_TTL.lookup game).getD 300

/-- The keys of client_map inside fetch_showcase. -/
def gamesList : List String := ["gi", "hsr", "zzz"]

/-- The loop of fetch_with_retry: the remaining attempt numbers, the last
observed error, and the count of client calls made so far; returns the
outcome and the total number of client calls. -/
def retryGo (up : Nat → Except Err PyVal) :
    List Nat → Option Err → Nat → Except Err PyVal × Nat
  | [], last, cnt => (.error (last.getD .noneType), cnt)
  | a :: rest, _, cnt =>
    match up a with
    | .ok d => (.ok d, cnt + 1)
    | .error e => retryGo up rest (some e) (cnt + 1)

/-- fetch_with_retry: attempts range(1, RETRY_COUNT + 2), returning the
first success or raising the last error, paired with how many times the
upstream client was invoked. -/
def fetchWithRetryPair (up : Nat → Except Err PyVal) : Except Err PyVal × Nat :=
  retryGo up (List.range' 1 (RETRY_COUNT + 1)) none 0

/-- What a call observed by the HTTP layer produces: a returned value, an
HTTPException with status and detail, or a json.loads error escaping the
handler. -/
inductive Outcome where
  | ok (v : PyVal)
  | httpError (code : Nat) (detail : String)
  | parseRaised
deriving Repr

/-- The observable result of one fetch_showcase call: its outcome, the
store it leaves behind, whether the per-key section was entered, how many
upstream client calls were made, and the TTL of the SETEX write if one
happened. -/
structure FRes where
  out : Outcome
  store : RedisStore
  lockTaken : Bool
  attempts : Nat
  writeTtl : Option Nat

/-- The body of the except-branch of fetch_showcase: fall back to the
double-checked cached_json if it was truthy (re-running json.loads on it,
which may raise), else raise HTTPException(500, str(e)). -/
def fallback (st : RedisStore) (e : Err) (n : Nat) (cj : Option Blob) : FRes :=
  match cj with
  | some b =>
    match parse b with
    | some v => ⟨.ok v, st, true, n, none⟩
    | none => ⟨.parseRaised, st, true, n, none⟩
  | none => ⟨.httpError 500 (errStr e), st, true, n, none⟩

/-- The try-branch inside the per-key section: index client_map (KeyError
for an unknown game is caught by the except branch), run the retry wrapper,
on success SETEX the dumped payload and return the payload itself. -/
def fetchTry (game key : String) (ttl : Nat) (st : RedisStore) (now : Nat)
    (up : Nat → Except Err PyVal) (cj : Option Blob) : FRes :=
  if game ∈ gamesList then
    match fetchWithRetryPair up with
    | (.ok d, n) => ⟨.ok d, redisSetex st now key ttl (dumps d), true, n, some ttl⟩
    | (.error e, n) => fallback st e n cj
  else fallback st (.keyError game) 0 cj

/-- The slow path of fetch_showcase: under the per-key section, re-read the
cache; a parseable hit is returned, a corrupt hit falls through with
cached_json kept for the fallback. -/
def fetchSlow (game key : String) (ttl : Nat) (st : RedisStore) (now : Nat)
    (up : Nat → Except Err PyVal) : FRes :=
  match redisGet st now key with
  | some b =>
    match parse b with
    | some v => ⟨.ok v, st, true, 0, none⟩
    | none => fetchTry game key ttl st now up (some b)
  | none => fetchTry game key ttl st now up none

/-- fetch_showcase of the source, sequentially: fast-path cache read (a
parse failure logs and falls through), then the per-key section with double
check, refresh and fallback. -/
def fetchShowcase (game : String) (uid : Int) (st : RedisStore) (now : Nat)
    (up : Nat → Except Err PyVal) : FRes :=
  let key := game ++ ":" ++ toString uid
  let ttl := ttlFor game
  match redisGet st now key with
  | some b =>
    match parse b with
    | some v => ⟨.ok v, st, false, 0, none⟩
    | none => fetchSlow game key ttl st now up
  | none => fetchSlow game key ttl st now up

/-- The route GET /enka/(game)/(uid) of the source: 400 for a game tag not
in CACHE_TTL, else fetch_showcase. -/
def getEnka (game : String) (uid : Int) (st : RedisStore) (now : Nat)
    (up : Nat → Except Err PyVal) : FRes :=
  if (CACHE_TTL.lookup game).isSome then fetchShowcase game uid st now up
  else ⟨.httpError 400 "Unknown game", st, false, 0, none⟩

/-- What the vendor interaction yields: a response with status, raw body
text and the value its body parses to (none when the body is not json), or
a transport-level httpx.RequestError with its message. -/
inductive VendorOutcome where
  | vresp (status : Nat) (body : String) (j : Option PyVal)
  | transportErr (msg : String)

/-- What the Identity V handler produces. -/
inductive IdvOut where
  | ok (v : PyVal)
  | httpError (code : Nat) (detail : String)
  | parseRaised
  | respJsonRaised
deriving Repr

/-- The observable result of one get_idv call: outcome, resulting store,
and whether the vendor endpoint was contacted. -/
structure IdvRes where
  out : IdvOut
  store : RedisStore
  vendorCalled : Bool

/-- get_idv of the source: cache read (json.loads unguarded), then the
vendor GET; raise_for_status surfaces any status of at least 400 with the
vendor body, httpx.RequestError becomes a 500 with a descriptive message,
and a good response is cached with SETEX for 300 seconds. -/
def getIdv (roleid : Int) (st : RedisStore) (now : Nat)
    (vendor : VendorOutcome) : IdvRes :=
  let key := "idv:" ++ toString roleid
  match redisGet st now key with
  | some b =>
    match parse b with
    | some v => ⟨.ok v, st, false⟩
    | none => ⟨.parseRaised, st, false⟩
  | none =>
    match vendor with
    | .transportErr m => ⟨.httpError 500 ("Request error: " ++ m), st, true⟩
    | .vresp status body j =>
      if 400 ≤ status then ⟨.httpError status body, st, true⟩
      else
        match j with
        | some v => ⟨.ok v, redisSetex st now key 300 (dumps v), true⟩
        | none => ⟨.respJsonRaised, st, true⟩

/-- The game a UID classifies to. -/
inductive GameTag where
  | gi
  | hsr
  | zzz
  | unknown
deriving DecidableEq, Repr

/-- Modelled from the spec: the UID Classifier (spec section 4.1) is absent
from src/main.py, whose /enka route takes the game tag explicitly; the spec
rule is: exactly 9 digits and first digit 6 gives hsr, first digit 1 gives
zzz, any other first digit gives gi, any other length gives unknown. -/
def classifyUid (n : Nat) : GameTag :=
  if 100000000 ≤ n ∧ n ≤ 999999999 then
    if n / 100000000 = 6 then .hsr
    else if n / 100000000 = 1 then .zzz
    else .gi
  else .unknown

/-- The string tag of a classified game. -/
def tagStr : GameTag → String
  | .gi => "gi"
  | .hsr => "hsr"
  | .zzz => "zzz"
  | .unknown => ""

/-- Modelled from the spec: the unified GET /enka/(uid) route (spec section
6) that runs the UID Classifier first is absent from src/main.py; per the
spec, a classification failure is answered with status 400, and otherwise
the request is delegated to the orchestrator under the classified tag. -/
def getEnkaUnified (uid : Nat) (st : RedisStore) (now : Nat)
    (up : Nat → Except Err PyVal) : FRes :=
  match classifyUid uid with
  | .unknown => ⟨.httpError 400 "UID classification failed", st, false, 0, none⟩
  | .gi => fetchShowcase "gi" uid st now up
  | .hsr => fetchShowcase "hsr" uid st now up
  | .zzz => fetchShowcase "zzz" uid st now up

/-! Concrete material shared by the witnesses and counterexamples. -/

/-- An upstream client that fails every attempt with the distinguished
timeout error. -/
def upAllFail : Nat → Except Err PyVal := fun _ => .error .timeout

/-- An upstream client that succeeds at once with a fixed payload. -/
def upOkNull : Nat → Except Err PyVal := fun _ => .ok .vnull

/-- A store holding one fresh, parseable entry under the key gi:1. -/
def freshStore : RedisStore :=
  fun k => if k = "gi:1" then some ⟨.ser .vnull, 0, 300⟩ else none

/-- A store holding one fresh but corrupt entry under the key gi:5. -/
def corruptStore : RedisStore :=
  fun k => if k = "gi:5" then some ⟨.corrupt, 0, 300⟩ else none

/-- A store holding one fresh but corrupt entry under the key idv:9. -/
def idvCorruptStore : RedisStore :=
  fun k => if k = "idv:9" then some ⟨.corrupt, 0, 300⟩ else none

/-! Helper lemmas about the orchestrator. -/

theorem fallback_writeTtl (st : RedisStore) (e : Err) (n : Nat)
    (cj : Option Blob) : (fallback st e n cj).writeTtl = none := by
  unfold fallback
  rcases cj with _ | b
  · rfl
  · cases hp : parse b <;> simp [hp]

theorem fetchTry_writeTtl (game key : String) (ttl : Nat) (st : RedisStore)
    (now : Nat) (up : Nat → Except Err PyVal) (cj : Option Blob) :
    (fetchTry game key ttl st now up cj).writeTtl = none ∨
      (fetchTry game key ttl st now up cj).writeTtl = some ttl := by
  unfold fetchTry
  by_cases hg : game ∈ gamesList
  · rw [if_pos hg]
    rcases hr : fetchWithRetryPair up with ⟨r, n⟩
    cases r with
    | ok d => right; rfl
    | error e => left; exact fallback_writeTtl st e n cj
  · rw [if_neg hg]
    left; exact fallback_writeTtl st (.keyError game) 0 cj

theorem fetchSlow_writeTtl (game key : String) (ttl : Nat) (st : RedisStore)
    (now : Nat) (up : Nat → Except Err PyVal) :
    (fetchSlow game key ttl st now up).writeTtl = none ∨
      (fetchSlow game key ttl st now up).writeTtl = some ttl := by
  unfold fetchSlow
  split
  · split
    · left; rfl
    · exact fetchTry_writeTtl game key ttl st now up _
  · exact fetchTry_writeTtl game key ttl st now up none

theorem fetchShowcase_writeTtl (game : String) (uid : Int) (st : RedisStore)
    (now : Nat) (up : Nat → Except Err PyVal) :
    (fetchShowcase game uid st now up).writeTtl = none ∨
      (fetchShowcase game uid st now up).writeTtl = some (ttlFor game) := by
  simp only [fetchShowcase]
  split
  · split
    · left; rfl
    · exact fetchSlow_writeTtl game _ _ st now up
  · exact fetchSlow_writeTtl game _ _ st now up

/-- Under three failing attempts the retry wrapper returns the last error
after three client calls. -/
theorem fetchWithRetryPair_allFail (up : Nat → Except Err PyVal)
    (e1 e2 e3 : Err) (h1 : up 1 = .error e1) (h2 : up 2 = .error e2)
    (h3 : up 3 = .error e3) : fetchWithRetryPair up = (.error e3, 3) := by
  show retryGo up [1, 2, 3] none 0 = (.error e3, 3)
  simp [retryGo, h1, h2, h3]

/-! Claim C5. -/

/-- Claim C5: a fetch_showcase call for a key with a fresh (readable,
parseable) cache entry returns that entry with no upstream call, no cache
write and without entering the per-key exclusive section. -/
theorem claim5_fresh_fast_path (game : String) (uid : Int) (st : RedisStore)
    (now : Nat) (up : Nat → Except Err PyVal) (b : Blob) (v : PyVal)
    (hget : redisGet st now (game ++ ":" ++ toString uid) = some b)
    (hp : parse b = some v) :
    fetchShowcase game uid st now up = ⟨.ok v, st, false, 0, none⟩ := by
  unfold fetchShowcase
  simp only [hget, hp]

/-- Witness for C5 at a concrete store holding a fresh entry for gi:1. -/
theorem claim5_witness :
    fetchShowcase "gi" 1 freshStore 0 upAllFail
      = ⟨.ok .vnull, freshStore, false, 0, none⟩ :=
  claim5_fresh_fast_path "gi" 1 freshStore 0 upAllFail (.ser .vnull) .vnull
    rfl rfl

/-! Claim C4. -/

/-- The retry policy as the spec states it: take the first success among
the three attempts, else the third attempt's error; the pair also carries
the number of attempts observed. -/
def c4Expected (a1 a2 a3 : Except Err PyVal) : Except Err PyVal × Nat :=
  match a1 with
  | .ok d => (.ok d, 1)
  | .error _ =>
    match a2 with
    | .ok d => (.ok d, 2)
    | .error _ =>
      match a3 with
      | .ok d => (.ok d, 3)
      | .error e => (.error e, 3)

/-- Claim C4: fetch_with_retry is configured with 2 retries (3 total
attempts); it retries on any failure, a successful attempt ends the call
with that attempt's data, and when all three attempts fail it raises the
last observed error. -/
theorem claim4_retry_policy (up : Nat → Except Err PyVal) :
    RETRY_COUNT = 2 ∧ fetchWithRetryPair up = c4Expected (up 1) (up 2) (up 3) := by
  refine ⟨rfl, ?_⟩
  show retryGo up [1, 2, 3] none 0 = _
  cases h1 : up 1 <;> cases h2 : up 2 <;> cases h3 : up 3 <;>
    simp [retryGo, c4Expected, h1, h2, h3]

/-! Claim C2. -/

/-- What fetch_showcase actually yields once the upstream fetcher has
failed every attempt, as a function of the double-checked cache read: no
value gives HTTPException 500 with the last error, an unparseable value
makes the fallback re-raise the json.loads error, and a parseable value
would have been returned before the fetcher was ever invoked. -/
def c2Expected (e : Err) (o : Option Blob) : Outcome :=
  match o with
  | none => .httpError 500 (errStr e)
  | some b =>
    match parse b with
    | some v => .ok v
    | none => .parseRaised

/-- Counterexample for C2: a fresh but unparseable value exists in the
store, the upstream fetcher is invoked and fails all three attempts, and
the call propagates the json.loads error instead of returning the cached
value and instead of an HTTP 500. -/
theorem claim2_counterexample :
    redisGet corruptStore 0 "gi:5" = some .corrupt ∧
    (fetchShowcase "gi" 5 corruptStore 0 upAllFail).attempts = 3 ∧
    (fetchShowcase "gi" 5 corruptStore 0 upAllFail).out = .parseRaised :=
  ⟨rfl, rfl, rfl⟩

/-- Claim C2 as amended: when the upstream fetcher fails on all attempts,
fetch_showcase raises HTTPException 500 with the last error if the cache
read found no value; a parseable cached value is returned before the
fetcher is ever invoked, and an unparseable one makes the stale-fallback
re-parse raise the deserialization error rather than return a value. -/
theorem claim2_amended (game : String) (uid : Int) (st : RedisStore)
    (now : Nat) (up : Nat → Except Err PyVal) (e1 e2 e3 : Err)
    (hg : game ∈ gamesList)
    (h1 : up 1 = .error e1) (h2 : up 2 = .error e2) (h3 : up 3 = .error e3) :
    (fetchShowcase game uid st now up).out
      = c2Expected e3 (redisGet st now (game ++ ":" ++ toString uid)) := by
  have hr := fetchWithRetryPair_allFail up e1 e2 e3 h1 h2 h3
  cases hc : redisGet st now (game ++ ":" ++ toString uid) with
  | some b =>
    cases hp : parse b with
    | some v => simp [fetchShowcase, c2Expected, hc, hp]
    | none =>
      simp [fetchShowcase, fetchSlow, fetchTry, fallback, c2Expected, hc, hp,
        hg, hr]
  | none =>
    simp [fetchShowcase, fetchSlow, fetchTry, fallback, c2Expected, hc, hg, hr]

/-- Witness for C2 as amended: empty store, all attempts time out, the
call is an HTTP 500 carrying the last error. -/
theorem claim2_witness :
    (fetchShowcase "gi" 7 emptyStore 0 upAllFail).out
      = c2Expected .timeout (redisGet emptyStore 0 "gi:7") :=
  claim2_amended "gi" 7 emptyStore 0 upAllFail .timeout .timeout .timeout
    (by decide) rfl rfl rfl

/-! Claim C3. -/

/-- Counterexample for C3: an entry written by the orchestrator's SETEX
with the keyspace TTL of 300 seconds is readable just before the TTL
elapses and is gone from the store right after, with no overwrite in
between. -/
theorem claim3_counterexample :
    redisGet (redisSetex emptyStore 0 "gi:1" 300 (.ser .vnull)) 299 "gi:1"
        = some (.ser .vnull) ∧
    redisGet (redisSetex emptyStore 0 "gi:1" 300 (.ser .vnull)) 301 "gi:1"
        = none :=
  ⟨rfl, rfl⟩

/-- Claim C3 as amended: the store enforces expiry natively, so an entry
whose TTL has elapsed is dropped rather than retained: every read at or
after wtime + ttl returns absent, while reads strictly inside the window
still see the written value. -/
theorem claim3_amended (st : RedisStore) (key : String) (b : Blob)
    (t0 ttl t t' : Nat) (hexp : t0 + ttl ≤ t) (hin : t' < t0 + ttl) :
    redisGet (redisSetex st t0 key ttl b) t key = none ∧
    redisGet (redisSetex st t0 key ttl b) t' key = some b := by
  unfold redisGet redisSetex
  rw [if_pos rfl]
  constructor
  · simp only [if_neg (by omega : ¬ t < t0 + ttl)]
  · simp only [if_pos hin]

/-- Witness for C3 as amended at the concrete TTL boundary of the gi
keyspace. -/
theorem claim3_witness :
    redisGet (redisSetex emptyStore 0 "gi:1" 300 (.ser .vnull)) 300 "gi:1"
        = none ∧
    redisGet (redisSetex emptyStore 0 "gi:1" 300 (.ser .vnull)) 0 "gi:1"
        = some (.ser .vnull) :=
  claim3_amended emptyStore "gi:1" (.ser .vnull) 0 300 300 0 (by omega)
    (by omega)

/-! Claim C6. -/

/-- A payload whose dict carries an integer key: json.dumps(default=str)
writes it as a string key. -/
def c6BadVal : PyVal := .vdict [(.kint 1, .vint 2)]

/-- A JSON-native payload used by the C6 witness. -/
def c6GoodVal : PyVal := .vdict [(.kstr "a", .vlist [.vint 1, .vnull])]

/-- Counterexample for C6: set followed by get on a payload with an
integer dict key returns a structurally different value, the key having
become the string 1. -/
theorem claim6_counterexample :
    Option.bind
        (redisGet (redisSetex emptyStore 0 "gi:1" 300 (dumps c6BadVal)) 0 "gi:1")
        parse
      = some (.vdict [(.kstr "1", .vint 2)]) ∧
    PyVal.vdict [(.kstr "1", .vint 2)] ≠ c6BadVal := by
  refine ⟨rfl, ?_⟩
  intro h
  simp [c6BadVal] at h

/-- Claim C6 as amended: the cache round-trip of set followed by get is
lossless exactly on JSON-native payloads (no datetimes, only string dict
keys); such a value is read back structurally equal. -/
theorem claim6_amended (st : RedisStore) (key : String) (v : PyVal)
    (now ttl : Nat) (hv : jsonNative v = true) (ht : 0 < ttl) :
    Option.bind (redisGet (redisSetex st now key ttl (dumps v)) now key) parse
      = some v := by
  unfold redisGet redisSetex
  rw [if_pos rfl]
  simp only [if_pos (by omega : now < now + ttl)]
  show parse (dumps v) = some v
  unfold dumps parse
  rw [jsonRoundTrip_id v hv]

/-- Witness for C6 as amended at a concrete JSON-native payload. -/
theorem claim6_witness :
    Option.bind
        (redisGet (redisSetex emptyStore 0 "gi:1" 300 (dumps c6GoodVal)) 0 "gi:1")
        parse
      = some c6GoodVal :=
  claim6_amended emptyStore "gi:1" c6GoodVal 0 300 rfl (by omega)

/-! Claim C7. -/

/-- Counterexample for C7: on the get_idv read path a fresh but
unparseable cached value makes json.loads raise out of the handler, the
vendor is never contacted (no refetch), so the deserialization error is
propagated to the caller. -/
theorem claim7_counterexample :
    (getIdv 9 idvCorruptStore 0 (.vresp 200 "ok" (some .vnull))).out
        = .parseRaised ∧
    (getIdv 9 idvCorruptStore 0 (.vresp 200 "ok" (some .vnull))).vendorCalled
        = false :=
  ⟨rfl, rfl⟩

/-- Claim C7 as amended: fetch_showcase treats a deserialization failure on
its fast-path and double-check reads as a miss and refetches from upstream
without surfacing the error, but on the get_idv read path the unguarded
json.loads propagates the deserialization error and no refetch happens. -/
theorem claim7_amended (game : String) (uid : Int) (st : RedisStore)
    (now : Nat) (up : Nat → Except Err PyVal) (b : Blob) (d : PyVal)
    (roleid : Int) (st2 : RedisStore) (now2 : Nat) (vend : VendorOutcome)
    (b2 : Blob)
    (hg : game ∈ gamesList)
    (hb : redisGet st now (game ++ ":" ++ toString uid) = some b)
    (hpb : parse b = none) (hup : up 1 = .ok d)
    (hb2 : redisGet st2 now2 ("idv:" ++ toString roleid) = some b2)
    (hpb2 : parse b2 = none) :
    (fetchShowcase game uid st now up).out = .ok d ∧
    (fetchShowcase game uid st now up).attempts = 1 ∧
    (getIdv roleid st2 now2 vend).out = .parseRaised ∧
    (getIdv roleid st2 now2 vend).vendorCalled = false := by
  have hretry : fetchWithRetryPair up = (.ok d, 1) := by
    show retryGo up [1, 2, 3] none 0 = _
    simp [retryGo, hup]
  have hfs : fetchShowcase game uid st now up
      = ⟨.ok d, redisSetex st now (game ++ ":" ++ toString uid) (ttlFor game)
          (dumps d), true, 1, some (ttlFor game)⟩ := by
    simp [fetchShowcase, fetchSlow, fetchTry, hb, hpb, hg, hretry]
  have hidv : getIdv roleid st2 now2 vend = ⟨.parseRaised, st2, false⟩ := by
    simp [getIdv, hb2, hpb2]
  rw [hfs, hidv]
  exact ⟨rfl, rfl, rfl, rfl⟩

/-- Witness for C7 as amended: corrupt entries under gi:5 and idv:9, a
succeeding upstream client for the showcase path. -/
theorem claim7_witness :
    (fetchShowcase "gi" 5 corruptStore 0 upOkNull).out = .ok .vnull ∧
    (fetchShowcase "gi" 5 corruptStore 0 upOkNull).attempts = 1 ∧
    (getIdv 9 idvCorruptStore 0 (.transportErr "dns")).out = .parseRaised ∧
    (getIdv 9 idvCorruptStore 0 (.transportErr "dns")).vendorCalled = false :=
  claim7_amended "gi" 5 corruptStore 0 upOkNull .corrupt .vnull 9
    idvCorruptStore 0 (.transportErr "dns") .corrupt (by decide) rfl rfl rfl
    rfl rfl

/-! Claim C9. -/

/-- Claim C9: on a cache miss of the Identity V path, every vendor response
with status at least 400 is surfaced to the caller with the vendor's own
status code and body, and a transport-level error is surfaced as a distinct
generic 500 with a descriptive message. -/
theorem claim9_idv_errors (roleid : Int) (st : RedisStore) (now : Nat)
    (status : Nat) (body : String) (j : Option PyVal) (m : String)
    (hmiss : redisGet st now ("idv:" ++ toString roleid) = none)
    (hst : 400 ≤ status) :
    (getIdv roleid st now (.vresp status body j)).out = .httpError status body ∧
    (getIdv roleid st now (.vresp status body j)).vendorCalled = true ∧
    (getIdv roleid st now (.transportErr m)).out
      = .httpError 500 ("Request error: " ++ m) := by
  refine ⟨?_, ?_, ?_⟩ <;> simp [getIdv, hmiss, hst]

/-- Witness for C9 at a concrete 404 response and a concrete transport
failure. -/
theorem claim9_witness :
    (getIdv 3 emptyStore 0 (.vresp 404 "not found" none)).out
        = .httpError 404 "not found" ∧
    (getIdv 3 emptyStore 0 (.vresp 404 "not found" none)).vendorCalled = true ∧
    (getIdv 3 emptyStore 0 (.transportErr "dns failure")).out
        = .httpError 500 ("Request error: " ++ "dns failure") :=
  claim9_idv_errors 3 emptyStore 0 404 "not found" none "dns failure" rfl
    (by omega)

/-! Claim C8. -/

/-- The classification rule as the spec's testable property states it, by
decimal ranges: 9-digit identifiers starting with 6 are hsr, starting with
1 are zzz, any other 9-digit identifier is gi, anything else unknown. -/
def c8Expected (n : Nat) : GameTag :=
  if 600000000 ≤ n ∧ n ≤ 699999999 then .hsr
  else if 100000000 ≤ n ∧ n ≤ 199999999 then .zzz
  else if 100000000 ≤ n ∧ n ≤ 999999999 then .gi
  else .unknown

/-- Claim C8: UID classification is the total deterministic function given
by the 9-digit leading-digit rule, an invalid game tag on the explicit
route is answered 400, and an unknown classification on the unified route
is answered 400. -/
theorem claim8_classification (n m : Nat) (g : String) (uid : Int)
    (st : RedisStore) (now : Nat) (up : Nat → Except Err PyVal)
    (hg : CACHE_TTL.lookup g = none) (hm : classifyUid m = .unknown) :
    classifyUid n = c8Expected n ∧
    (getEnka g uid st now up).out = .httpError 400 "Unknown game" ∧
    (getEnkaUnified m st now up).out
      = .httpError 400 "UID classification failed" := by
  refine ⟨?_, ?_, ?_⟩
  · unfold classifyUid c8Expected
    split_ifs <;> first | rfl | (exfalso; omega)
  · simp [getEnka, hg]
  · simp [getEnkaUnified, hm]

/-- Witness for C8 at the spec's own scenario identifiers. -/
theorem claim8_witness :
    classifyUid 800000000 = c8Expected 800000000 ∧
    (getEnka "idv" 1 emptyStore 0 upAllFail).out
        = .httpError 400 "Unknown game" ∧
    (getEnkaUnified 42 emptyStore 0 upAllFail).out
        = .httpError 400 "UID classification failed" :=
  claim8_classification 800000000 42 "idv" 1 emptyStore 0 upAllFail rfl
    (by decide)

/-! Claim C10. -/

/-- Claim C10: for a keyspace tag outside the TTL registry, fetch_showcase
does not fail at TTL lookup: the looked-up TTL silently defaults to 300
seconds, and any SETEX write the call performs carries that TTL. -/
theorem claim10_default_ttl (g : String) (uid : Int) (st : RedisStore)
    (now : Nat) (up : Nat → Except Err PyVal)
    (hg : CACHE_TTL.lookup g = none) :
    ttlFor g = 300 ∧
    Option.all (fun t => t == 300) (fetchShowcase g uid st now up).writeTtl
      = true := by
  have h300 : ttlFor g = 300 := by
    unfold ttlFor
    rw [hg]
    rfl
  refine ⟨h300, ?_⟩
  rcases fetchShowcase_writeTtl g uid st now up with hw | hw <;>
    rw [hw] <;> simp [h300]

/-- Witness for C10 at the tag idv, which the showcase TTL registry does
not contain. -/
theorem claim10_witness :
    ttlFor "idv" = 300 ∧
    Option.all (fun t => t == 300)
        (fetchShowcase "idv" 0 emptyStore 0 upAllFail).writeTtl = true :=
  claim10_default_ttl "idv" 0 emptyStore 0 upAllFail rfl

/-!
The concurrent semantics of fetch_showcase: N asyncio tasks run the
function for their key, interleaved cooperatively, one program point per
await of the source (fast-path GET, lock acquisition, double-check GET,
the upstream fetch, SETEX, release-and-return). The upstream fetcher is
modelled as succeeding deterministically per key (the scenario of the
coalescing guarantee); its single step covers the whole retry wrapper.
-/

/-- The program counter of one task running fetch_showcase for its key. -/
inductive TState where
  | ready
  | acquiring
  | locked0
  | fetching
  | writing (v : PyVal)
  | wrote (v : PyVal)
  | done (v : PyVal)

/-- States in which a task holds its key's exclusive section. -/
def holdsLock : TState → Prop
  | .locked0 => True
  | .fetching => True
  | .writing _ => True
  | .wrote _ => True
  | _ => False

/-- States a task can be in before any upstream fetch completed. -/
def preState : TState → Prop
  | .ready => True
  | .acquiring => True
  | .locked0 => True
  | .fetching => True
  | _ => False

/-- The task has returned. -/
def isDone : TState → Prop
  | .done _ => True
  | _ => False

/-- The shared state of the process: the cache (keyed blobs, expiry not
modelled across the sub-second coalescing window), the per-key section
holders of fetch_locks, the number of upstream fetches per key, and each
task's program counter. -/
structure CSt (N : Nat) where
  cache : String → Option Blob
  lockHolder : String → Option (Fin N)
  count : String → Nat
  tasks : Fin N → TState

/-- One cooperative step of task i, mirroring fetch_showcase: fast-path
read (hit returns, miss or corrupt value proceeds to the section), lock
acquisition (only when free), double-check read under the lock (hit
releases and returns), the upstream fetch, the SETEX write of the dumped
payload, and release-and-return of the fetched payload. -/
inductive Step (keys : Fin N → String) (fv : String → PyVal) :
    CSt N → Fin N → CSt N → Prop where
  | fastHit (s : CSt N) (i : Fin N) (b : Blob) (v : PyVal)
      (ht : s.tasks i = .ready) (hc : s.cache (keys i) = some b)
      (hp : parse b = some v) :
      Step keys fv s i { s with tasks := Function.update s.tasks i (.done v) }
  | fastMissNone (s : CSt N) (i : Fin N)
      (ht : s.tasks i = .ready) (hc : s.cache (keys i) = none) :
      Step keys fv s i { s with tasks := Function.update s.tasks i .acquiring }
  | fastMissCorrupt (s : CSt N) (i : Fin N) (b : Blob)
      (ht : s.tasks i = .ready) (hc : s.cache (keys i) = some b)
      (hp : parse b = none) :
      Step keys fv s i { s with tasks := Function.update s.tasks i .acquiring }
  | acquire (s : CSt N) (i : Fin N)
      (ht : s.tasks i = .acquiring) (hl : s.lockHolder (keys i) = none) :
      Step keys fv s i
        { s with
          lockHolder := Function.update s.lockHolder (keys i) (some i),
          tasks := Function.update s.tasks i .locked0 }
  | doubleHit (s : CSt N) (i : Fin N) (b : Blob) (v : PyVal)
      (ht : s.tasks i = .locked0) (hc : s.cache (keys i) = some b)
      (hp : parse b = some v) :
      Step keys fv s i
        { s with
          lockHolder := Function.update s.lockHolder (keys i) none,
          tasks := Function.update s.tasks i (.done v) }
  | doubleMissNone (s : CSt N) (i : Fin N)
      (ht : s.tasks i = .locked0) (hc : s.cache (keys i) = none) :
      Step keys fv s i { s with tasks := Function.update s.tasks i .fetching }
  | doubleMissCorrupt (s : CSt N) (i : Fin N) (b : Blob)
      (ht : s.tasks i = .locked0) (hc : s.cache (keys i) = some b)
      (hp : parse b = none) :
      Step keys fv s i { s with tasks := Function.update s.tasks i .fetching }
  | fetchStep (s : CSt N) (i : Fin N) (ht : s.tasks i = .fetching) :
      Step keys fv s i
        { s with
          count := Function.update s.count (keys i) (s.count (keys i) + 1),
          tasks := Function.update s.tasks i (.writing (fv (keys i))) }
  | writeStep (s : CSt N) (i : Fin N) (v : PyVal)
      (ht : s.tasks i = .writing v) :
      Step keys fv s i
        { s with
          cache := Function.update s.cache (keys i) (some (dumps v)),
          tasks := Function.update s.tasks i (.wrote v) }
  | finish (s : CSt N) (i : Fin N) (v : PyVal) (ht : s.tasks i = .wrote v) :
      Step keys fv s i
        { s with
          lockHolder := Function.update s.lockHolder (keys i) none,
          tasks := Function.update s.tasks i (.done v) }

/-- Some task takes a step. -/
def StepAny (keys : Fin N → String) (fv : String → PyVal)
    (s s' : CSt N) : Prop :=
  ∃ i, Step keys fv s i s'

/-- Reachability under any cooperative interleaving. -/
def Reach (keys : Fin N → String) (fv : String → PyVal) :
    CSt N → CSt N → Prop :=
  Relation.ReflTransGen (StepAny keys fv)

/-- The start state: a given cache, all sections free, no fetches made,
every task about to run its fast-path read. -/
def initSt (N : Nat) (c0 : String → Option Blob) : CSt N :=
  ⟨c0, fun _ => none, fun _ => 0, fun _ => .ready⟩

/-- All tasks have returned. -/
def AllDone (s : CSt N) : Prop := ∀ i, isDone (s.tasks i)

/-- Task i can take a step right now. -/
def CanStep (keys : Fin N → String) (fv : String → PyVal) (s : CSt N)
    (i : Fin N) : Prop :=
  ∃ s', Step keys fv s i s'

/-- Task i is waiting on its own key's exclusive section, held by another
task for the same key. -/
def BlockedSameKey (keys : Fin N → String) (s : CSt N) (i : Fin N) : Prop :=
  s.tasks i = .acquiring ∧
    ∃ j, j ≠ i ∧ keys j = keys i ∧ s.lockHolder (keys i) = some j

/-- The inductive invariant of the same-key scenario (every task on key k,
k initially uncached, per-key deterministic successful upstream): lock
discipline, cache contents, what each program counter implies, and the
phase disjunction that pins the upstream fetch count. -/
structure InvK (N : Nat) (k : String) (fv : String → PyVal) (s : CSt N) :
    Prop where
  mutex : ∀ i, holdsLock (s.tasks i) → s.lockHolder k = some i
  cacheOK : ∀ b, s.cache k = some b → b = dumps (fv k)
  fetchPre : ∀ i, s.tasks i = .fetching → s.cache k = none
  writingPre : ∀ i v, s.tasks i = .writing v → s.cache k = none ∧ v = fv k
  wroteVal : ∀ i v, s.tasks i = .wrote v → v = fv k
  doneVal : ∀ i v, s.tasks i = .done v → v = fv k ∨ v = jsonRoundTrip (fv k)
  otherCount : ∀ kk, kk ≠ k → s.count kk = 0
  phase : (s.count k = 0 ∧ s.cache k = none ∧ ∀ i, preState (s.tasks i)) ∨
    (s.count k = 1 ∧
      (s.cache k = some (dumps (fv k)) ∨ ∃ i v, s.tasks i = .writing v))

theorem invK_init (N : Nat) (k : String) (fv : String → PyVal)
    (c0 : String → Option Blob) (hc0 : c0 k = none) :
    InvK N k fv (initSt N c0) := by
  refine ⟨?_, ?_, ?_, ?_, ?_, ?_, ?_, ?_⟩
  · intro i h
    simp [initSt, holdsLock] at h
  · intro b hb
    simp only [initSt] at hb
    rw [hc0] at hb
    exact absurd hb (by simp)
  · intro i h
    simp [initSt] at h
  · intro i v h
    simp [initSt] at h
  · intro i v h
    simp [initSt] at h
  · intro i v h
    simp [initSt] at h
  · intro kk _
    rfl
  · exact Or.inl ⟨rfl, hc0, fun i => trivial⟩

theorem invK_step {N : Nat} {k : String} {fv : String → PyVal}
    {keys : Fin N → String} {s s' : CSt N} {i : Fin N}
    (hkeys : ∀ j, keys j = k) (inv : InvK N k fv s)
    (hs : Step keys fv s i s') : InvK N k fv s' := by
  obtain ⟨mtx, cok, fpre, wpre, wval, dval, octr, ph⟩ := inv
  cases hs with
  | fastHit b v ht hc hp =>
    rw [hkeys i] at hc
    refine ⟨?_, cok, ?_, ?_, ?_, ?_, octr, ?_⟩
    · intro j hj
      rcases eq_or_ne j i with hji | hji
      · subst hji
        simp [Function.update_same, holdsLock] at hj
      · simp only [Function.update_noteq hji] at hj
        exact mtx j hj
    · intro j hj
      rcases eq_or_ne j i with hji | hji
      · subst hji
        simp [Function.update_same] at hj
      · simp only [Function.update_noteq hji] at hj
        exact fpre j hj
    · intro j v2 hj
      rcases eq_or_ne j i with hji | hji
      · subst hji
        simp [Function.update_same] at hj
      · simp only [Function.update_noteq hji] at hj
        exact wpre j v2 hj
    · intro j v2 hj
      rcases eq_or_ne j i with hji | hji
      · subst hji
        simp [Function.update_same] at hj
      · simp only [Function.update_noteq hji] at hj
        exact wval j v2 hj
    · intro j v2 hj
      rcases eq_or_ne j i with hji | hji
      · subst hji
        simp only [Function.update_same] at hj
        injection hj with hv
        subst hv
        rw [cok b hc] at hp
        simp only [dumps, parse, Option.some.injEq] at hp
        exact Or.inr hp.symm
      · simp only [Function.update_noteq hji] at hj
        exact dval j v2 hj
    · rcases ph with ⟨h0, hcn, hpre2⟩ | ⟨h1, hd⟩
      · rw [hcn] at hc
        exact Option.noConfusion hc
      · refine Or.inr ⟨h1, ?_⟩
        rcases hd with hcs | ⟨j, v2, hj⟩
        · exact Or.inl hcs
        · have hji : j ≠ i := by
            intro he
            subst he
            rw [ht] at hj
            exact TState.noConfusion hj
          exact Or.inr ⟨j, v2, by simp only [Function.update_noteq hji]; exact hj⟩
  | fastMissNone ht hc =>
    refine ⟨?_, cok, ?_, ?_, ?_, ?_, octr, ?_⟩
    · intro j hj
      rcases eq_or_ne j i with hji | hji
      · subst hji
        simp [Function.update_same, holdsLock] at hj
      · simp only [Function.update_noteq hji] at hj
        exact mtx j hj
    · intro j hj
      rcases eq_or_ne j i with hji | hji
      · subst hji
        simp [Function.update_same] at hj
      · simp only [Function.update_noteq hji] at hj
        exact fpre j hj
    · intro j v2 hj
      rcases eq_or_ne j i with hji | hji
      · subst hji
        simp [Function.update_same] at hj
      · simp only [Function.update_noteq hji] at hj
        exact wpre j v2 hj
    · intro j v2 hj
      rcases eq_or_ne j i with hji | hji
      · subst hji
        simp [Function.update_same] at hj
      · simp only [Function.update_noteq hji] at hj
        exact wval j v2 hj
    · intro j v2 hj
      rcases eq_or_ne j i with hji | hji
      · subst hji
        simp [Function.update_same] at hj
      · simp only [Function.update_noteq hji] at hj
        exact dval j v2 hj
    · rcases ph with ⟨h0, hcn, hpre2⟩ | ⟨h1, hd⟩
      · refine Or.inl ⟨h0, hcn, ?_⟩
        intro j
        rcases eq_or_ne j i with hji | hji
        · subst hji
          simp only [Function.update_same]
          trivial
        · simp only [Function.update_noteq hji]
          exact hpre2 j
      · refine Or.inr ⟨h1, ?_⟩
        rcases hd with hcs | ⟨j, v2, hj⟩
        · exact Or.inl hcs
        · have hji : j ≠ i := by
            intro he
            subst he
            rw [ht] at hj
            exact TState.noConfusion hj
          exact Or.inr ⟨j, v2, by simp only [Function.update_noteq hji]; exact hj⟩
  | fastMissCorrupt b ht hc hp =>
    refine ⟨?_, cok, ?_, ?_, ?_, ?_, octr, ?_⟩
    · intro j hj
      rcases eq_or_ne j i with hji | hji
      · subst hji
        simp [Function.update_same, holdsLock] at hj
      · simp only [Function.update_noteq hji] at hj
        exact mtx j hj
    · intro j hj
      rcases eq_or_ne j i with hji | hji
      · subst hji
        simp [Function.update_same] at hj
      · simp only [Function.update_noteq hji] at hj
        exact fpre j hj
    · intro j v2 hj
      rcases eq_or_ne j i with hji | hji
      · subst hji
        simp [Function.update_same] at hj
      · simp only [Function.update_noteq hji] at hj
        exact wpre j v2 hj
    · intro j v2 hj
      rcases eq_or_ne j i with hji | hji
      · subst hji
        simp [Function.update_same] at hj
      · simp only [Function.update_noteq hji] at hj
        exact wval j v2 hj
    · intro j v2 hj
      rcases eq_or_ne j i with hji | hji
      · subst hji
        simp [Function.update_same] at hj
      · simp only [Function.update_noteq hji] at hj
        exact dval j v2 hj
    · rcases ph with ⟨h0, hcn, hpre2⟩ | ⟨h1, hd⟩
      · refine Or.inl ⟨h0, hcn, ?_⟩
        intro j
        rcases eq_or_ne j i with hji | hji
        · subst hji
          simp only [Function.update_same]
          trivial
        · simp only [Function.update_noteq hji]
          exact hpre2 j
      · refine Or.inr ⟨h1, ?_⟩
        rcases hd with hcs | ⟨j, v2, hj⟩
        · exact Or.inl hcs
        · have hji : j ≠ i := by
            intro he
            subst he
            rw [ht] at hj
            exact TState.noConfusion hj
          exact Or.inr ⟨j, v2, by simp only [Function.update_noteq hji]; exact hj⟩
  | acquire ht hl =>
    rw [hkeys i] at hl
    rw [hkeys i]
    refine ⟨?_, cok, ?_, ?_, ?_, ?_, octr, ?_⟩
    · intro j hj
      rcases eq_or_ne j i with hji | hji
      · subst hji
        simp only [Function.update_same]
      · simp only [Function.update_noteq hji] at hj
        exact absurd ((mtx j hj).symm.trans hl) (by simp)
    · intro j hj
      rcases eq_or_ne j i with hji | hji
      · subst hji
        simp [Function.update_same] at hj
      · simp only [Function.update_noteq hji] at hj
        exact fpre j hj
    · intro j v2 hj
      rcases eq_or_ne j i with hji | hji
      · subst hji
        simp [Function.update_same] at hj
      · simp only [Function.update_noteq hji] at hj
        exact wpre j v2 hj
    · intro j v2 hj
      rcases eq_or_ne j i with hji | hji
      · subst hji
        simp [Function.update_same] at hj
      · simp only [Function.update_noteq hji] at hj
        exact wval j v2 hj
    · intro j v2 hj
      rcases eq_or_ne j i with hji | hji
      · subst hji
        simp [Function.update_same] at hj
      · simp only [Function.update_noteq hji] at hj
        exact dval j v2 hj
    · rcases ph with ⟨h0, hcn, hpre2⟩ | ⟨h1, hd⟩
      · refine Or.inl ⟨h0, hcn, ?_⟩
        intro j
        rcases eq_or_ne j i with hji | hji
        · subst hji
          simp only [Function.update_same]
          trivial
        · simp only [Function.update_noteq hji]
          exact hpre2 j
      · refine Or.inr ⟨h1, ?_⟩
        rcases hd with hcs | ⟨j, v2, hj⟩
        · exact Or.inl hcs
        · have hji : j ≠ i := by
            intro he
            subst he
            rw [ht] at hj
            exact TState.noConfusion hj
          exact Or.inr ⟨j, v2, by simp only [Function.update_noteq hji]; exact hj⟩
  | doubleHit b v ht hc hp =>
    rw [hkeys i] at hc
    rw [hkeys i]
    have hlock : s.lockHolder k = some i := mtx i (by rw [ht]; trivial)
    refine ⟨?_, cok, ?_, ?_, ?_, ?_, octr, ?_⟩
    · intro j hj
      rcases eq_or_ne j i with hji | hji
      · subst hji
        simp [Function.update_same, holdsLock] at hj
      · simp only [Function.update_noteq hji] at hj
        have h2 := (mtx j hj).symm.trans hlock
        injection h2 with h3
        exact absurd h3 hji
    · intro j hj
      rcases eq_or_ne j i with hji | hji
      · subst hji
        simp [Function.update_same] at hj
      · simp only [Function.update_noteq hji] at hj
        exact fpre j hj
    · intro j v2 hj
      rcases eq_or_ne j i with hji | hji
      · subst hji
        simp [Function.update_same] at hj
      · simp only [Function.update_noteq hji] at hj
        exact wpre j v2 hj
    · intro j v2 hj
      rcases eq_or_ne j i with hji | hji
      · subst hji
        simp [Function.update_same] at hj
      · simp only [Function.update_noteq hji] at hj
        exact wval j v2 hj
    · intro j v2 hj
      rcases eq_or_ne j i with hji | hji
      · subst hji
        simp only [Function.update_same] at hj
        injection hj with hv
        subst hv
        rw [cok b hc] at hp
        simp only [dumps, parse, Option.some.injEq] at hp
        exact Or.inr hp.symm
      · simp only [Function.update_noteq hji] at hj
        exact dval j v2 hj
    · rcases ph with ⟨h0, hcn, hpre2⟩ | ⟨h1, hd⟩
      · rw [hcn] at hc
        exact Option.noConfusion hc
      · refine Or.inr ⟨h1, ?_⟩
        rcases hd with hcs | ⟨j, v2, hj⟩
        · exact Or.inl hcs
        · have hji : j ≠ i := by
            intro he
            subst he
            rw [ht] at hj
            exact TState.noConfusion hj
          exact Or.inr ⟨j, v2, by simp only [Function.update_noteq hji]; exact hj⟩
  | doubleMissNone ht hc =>
    rw [hkeys i] at hc
    refine ⟨?_, cok, ?_, ?_, ?_, ?_, octr, ?_⟩
    · intro j hj
      rcases eq_or_ne j i with hji | hji
      · subst hji
        exact mtx j (by rw [ht]; trivial)
      · simp only [Function.update_noteq hji] at hj
        exact mtx j hj
    · intro j hj
      exact hc
    · intro j v2 hj
      rcases eq_or_ne j i with hji | hji
      · subst hji
        simp [Function.update_same] at hj
      · simp only [Function.update_noteq hji] at hj
        exact wpre j v2 hj
    · intro j v2 hj
      rcases eq_or_ne j i with hji | hji
      · subst hji
        simp [Function.update_same] at hj
      · simp only [Function.update_noteq hji] at hj
        exact wval j v2 hj
    · intro j v2 hj
      rcases eq_or_ne j i with hji | hji
      · subst hji
        simp [Function.update_same] at hj
      · simp only [Function.update_noteq hji] at hj
        exact dval j v2 hj
    · rcases ph with ⟨h0, hcn, hpre2⟩ | ⟨h1, hd⟩
      · refine Or.inl ⟨h0, hcn, ?_⟩
        intro j
        rcases eq_or_ne j i with hji | hji
        · subst hji
          simp only [Function.update_same]
          trivial
        · simp only [Function.update_noteq hji]
          exact hpre2 j
      · refine Or.inr ⟨h1, ?_⟩
        rcases hd with hcs | ⟨j, v2, hj⟩
        · rw [hcs] at hc
          exact Option.noConfusion hc
        · have hji : j ≠ i := by
            intro he
            subst he
            rw [ht] at hj
            exact TState.noConfusion hj
          exact Or.inr ⟨j, v2, by simp only [Function.update_noteq hji]; exact hj⟩
  | doubleMissCorrupt b ht hc hp =>
    rw [hkeys i] at hc
    rw [cok b hc] at hp
    simp [dumps, parse] at hp
  | fetchStep ht =>
    rw [hkeys i]
    have hcnone : s.cache k = none := fpre i ht
    refine ⟨?_, cok, ?_, ?_, ?_, ?_, ?_, ?_⟩
    · intro j hj
      rcases eq_or_ne j i with hji | hji
      · subst hji
        exact mtx j (by rw [ht]; trivial)
      · simp only [Function.update_noteq hji] at hj
        exact mtx j hj
    · intro j hj
      rcases eq_or_ne j i with hji | hji
      · subst hji
        simp [Function.update_same] at hj
      · simp only [Function.update_noteq hji] at hj
        exact hcnone
    · intro j v2 hj
      rcases eq_or_ne j i with hji | hji
      · subst hji
        simp only [Function.update_same] at hj
        injection hj with hv
        exact ⟨hcnone, hv.symm⟩
      · simp only [Function.update_noteq hji] at hj
        exact wpre j v2 hj
    · intro j v2 hj
      rcases eq_or_ne j i with hji | hji
      · subst hji
        simp [Function.update_same] at hj
      · simp only [Function.update_noteq hji] at hj
        exact wval j v2 hj
    · intro j v2 hj
      rcases eq_or_ne j i with hji | hji
      · subst hji
        simp [Function.update_same] at hj
      · simp only [Function.update_noteq hji] at hj
        exact dval j v2 hj
    · intro kk hkk
      simp only [Function.update_noteq hkk]
      exact octr kk hkk
    · rcases ph with ⟨h0, hcn, hpre2⟩ | ⟨h1, hd⟩
      · refine Or.inr ⟨?_, Or.inr ⟨i, fv k, ?_⟩⟩
        · simp only [Function.update_same]
          omega
        · simp only [Function.update_same]
      · exfalso
        rcases hd with hcs | ⟨j, v2, hj⟩
        · rw [hcs] at hcnone
          exact Option.noConfusion hcnone
        · have h1j := mtx j (by rw [hj]; trivial)
          have h1i := mtx i (by rw [ht]; trivial)
          have h2 := h1j.symm.trans h1i
          injection h2 with h3
          subst h3
          rw [ht] at hj
          exact TState.noConfusion hj
  | writeStep v ht =>
    rw [hkeys i]
    obtain ⟨hcnone, hvfv⟩ := wpre i v ht
    subst hvfv
    refine ⟨?_, ?_, ?_, ?_, ?_, ?_, octr, ?_⟩
    · intro j hj
      rcases eq_or_ne j i with hji | hji
      · subst hji
        exact mtx j (by rw [ht]; trivial)
      · simp only [Function.update_noteq hji] at hj
        exact mtx j hj
    · intro b hb
      simp only [Function.update_same] at hb
      injection hb with hbb
      exact hbb.symm
    · intro j hj
      rcases eq_or_ne j i with hji | hji
      · subst hji
        simp [Function.update_same] at hj
      · simp only [Function.update_noteq hji] at hj
        have h1j := mtx j (by rw [hj]; trivial)
        have h1i := mtx i (by rw [ht]; trivial)
        have h2 := h1j.symm.trans h1i
        injection h2 with h3
        exact absurd h3 hji
    · intro j v2 hj
      rcases eq_or_ne j i with hji | hji
      · subst hji
        simp [Function.update_same] at hj
      · simp only [Function.update_noteq hji] at hj
        have h1j := mtx j (by rw [hj]; trivial)
        have h1i := mtx i (by rw [ht]; trivial)
        have h2 := h1j.symm.trans h1i
        injection h2 with h3
        exact absurd h3 hji
    · intro j v2 hj
      rcases eq_or_ne j i with hji | hji
      · subst hji
        simp only [Function.update_same] at hj
        injection hj with hv
        exact hv.symm
      · simp only [Function.update_noteq hji] at hj
        exact wval j v2 hj
    · intro j v2 hj
      rcases eq_or_ne j i with hji | hji
      · subst hji
        simp [Function.update_same] at hj
      · simp only [Function.update_noteq hji] at hj
        exact dval j v2 hj
    · rcases ph with ⟨h0, hcn, hpre2⟩ | ⟨h1, hd⟩
      · exact absurd (hpre2 i) (by rw [ht]; simp [preState])
      · refine Or.inr ⟨h1, Or.inl ?_⟩
        simp only [Function.update_same]
  | finish v ht =>
    rw [hkeys i]
    have hvfv : v = fv k := wval i v ht
    have hlock : s.lockHolder k = some i := mtx i (by rw [ht]; trivial)
    refine ⟨?_, cok, ?_, ?_, ?_, ?_, octr, ?_⟩
    · intro j hj
      rcases eq_or_ne j i with hji | hji
      · subst hji
        simp [Function.update_same, holdsLock] at hj
      · simp only [Function.update_noteq hji] at hj
        have h2 := (mtx j hj).symm.trans hlock
        injection h2 with h3
        exact absurd h3 hji
    · intro j hj
      rcases eq_or_ne j i with hji | hji
      · subst hji
        simp [Function.update_same] at hj
      · simp only [Function.update_noteq hji] at hj
        exact fpre j hj
    · intro j v2 hj
      rcases eq_or_ne j i with hji | hji
      · subst hji
        simp [Function.update_same] at hj
      · simp only [Function.update_noteq hji] at hj
        exact wpre j v2 hj
    · intro j v2 hj
      rcases eq_or_ne j i with hji | hji
      · subst hji
        simp [Function.update_same] at hj
      · simp only [Function.update_noteq hji] at hj
        exact wval j v2 hj
    · intro j v2 hj
      rcases eq_or_ne j i with hji | hji
      · subst hji
        simp only [Function.update_same] at hj
        injection hj with hv
        subst hv
        exact Or.inl hvfv
      · simp only [Function.update_noteq hji] at hj
        exact dval j v2 hj
    · rcases ph with ⟨h0, hcn, hpre2⟩ | ⟨h1, hd⟩
      · exact absurd (hpre2 i) (by rw [ht]; simp [preState])
      · refine Or.inr ⟨h1, ?_⟩
        rcases hd with hcs | ⟨j, v2, hj⟩
        · exact Or.inl hcs
        · have hji : j ≠ i := by
            intro he
            subst he
            rw [ht] at hj
            exact TState.noConfusion hj
          exact Or.inr ⟨j, v2, by simp only [Function.update_noteq hji]; exact hj⟩


theorem invK_reach {N : Nat} {k : String} {fv : String → PyVal}
    {keys : Fin N → String} {s0 s : CSt N} (hkeys : ∀ j, keys j = k)
    (h0 : InvK N k fv s0) (hr : Reach keys fv s0 s) : InvK N k fv s := by
  induction hr with
  | refl => exact h0
  | tail _ hbc ih =>
    obtain ⟨i, hstep⟩ := hbc
    exact invK_step hkeys ih hstep

/-- The lock discipline that holds for any mix of keys: a task in a
lock-holding state holds exactly its own key's section, and a held section
is held by a task of that key in a lock-holding state. -/
structure GInv (keys : Fin N → String) (s : CSt N) : Prop where
  g1 : ∀ i, holdsLock (s.tasks i) → s.lockHolder (keys i) = some i
  g2 : ∀ kk i, s.lockHolder kk = some i → keys i = kk ∧ holdsLock (s.tasks i)

theorem ginv_init (N : Nat) (keys : Fin N → String)
    (c0 : String → Option Blob) : GInv keys (initSt N c0) := by
  refine ⟨?_, ?_⟩
  · intro i h
    simp [initSt, holdsLock] at h
  · intro kk i h
    exact absurd h (by simp [initSt])

theorem ginv_step {N : Nat} {keys : Fin N → String} {fv : String → PyVal}
    {s s' : CSt N} {i : Fin N} (inv : GInv keys s)
    (hs : Step keys fv s i s') : GInv keys s' := by
  obtain ⟨g1, g2⟩ := inv
  cases hs with
  | fastHit b v ht hc hp =>
    refine ⟨?_, ?_⟩
    · intro j hj
      rcases eq_or_ne j i with hji | hji
      · subst hji
        simp [Function.update_same, holdsLock] at hj
      · simp only [Function.update_noteq hji] at hj
        exact g1 j hj
    · intro kk j hl
      obtain ⟨hkj, hold⟩ := g2 kk j hl
      rcases eq_or_ne j i with hji | hji
      · subst hji
        rw [ht] at hold
        simp [holdsLock] at hold
      · exact ⟨hkj, by simp only [Function.update_noteq hji]; exact hold⟩
  | fastMissNone ht hc =>
    refine ⟨?_, ?_⟩
    · intro j hj
      rcases eq_or_ne j i with hji | hji
      · subst hji
        simp [Function.update_same, holdsLock] at hj
      · simp only [Function.update_noteq hji] at hj
        exact g1 j hj
    · intro kk j hl
      obtain ⟨hkj, hold⟩ := g2 kk j hl
      rcases eq_or_ne j i with hji | hji
      · subst hji
        rw [ht] at hold
        simp [holdsLock] at hold
      · exact ⟨hkj, by simp only [Function.update_noteq hji]; exact hold⟩
  | fastMissCorrupt b ht hc hp =>
    refine ⟨?_, ?_⟩
    · intro j hj
      rcases eq_or_ne j i with hji | hji
      · subst hji
        simp [Function.update_same, holdsLock] at hj
      · simp only [Function.update_noteq hji] at hj
        exact g1 j hj
    · intro kk j hl
      obtain ⟨hkj, hold⟩ := g2 kk j hl
      rcases eq_or_ne j i with hji | hji
      · subst hji
        rw [ht] at hold
        simp [holdsLock] at hold
      · exact ⟨hkj, by simp only [Function.update_noteq hji]; exact hold⟩
  | acquire ht hl =>
    refine ⟨?_, ?_⟩
    · intro j hj
      rcases eq_or_ne j i with hji | hji
      · subst hji
        simp only [Function.update_same]
      · simp only [Function.update_noteq hji] at hj
        have hlj := g1 j hj
        rcases eq_or_ne (keys j) (keys i) with hk | hk
        · rw [hk] at hlj
          rw [hl] at hlj
          exact Option.noConfusion hlj
        · simp only [Function.update_noteq hk]
          exact hlj
    · intro kk j hl2
      rcases eq_or_ne kk (keys i) with hk | hk
      · subst hk
        simp only [Function.update_same] at hl2
        injection hl2 with hij
        subst hij
        refine ⟨rfl, ?_⟩
        simp only [Function.update_same]
        trivial
      · simp only [Function.update_noteq hk] at hl2
        obtain ⟨hkj, hold⟩ := g2 kk j hl2
        have hji : j ≠ i := by
          intro he
          subst he
          exact hk hkj.symm
        refine ⟨hkj, ?_⟩
        simp only [Function.update_noteq hji]
        exact hold
  | doubleHit b v ht hc hp =>
    refine ⟨?_, ?_⟩
    · intro j hj
      rcases eq_or_ne j i with hji | hji
      · subst hji
        simp [Function.update_same, holdsLock] at hj
      · simp only [Function.update_noteq hji] at hj
        have hlj := g1 j hj
        rcases eq_or_ne (keys j) (keys i) with hk | hk
        · have hli := g1 i (by rw [ht]; trivial)
          rw [hk] at hlj
          have h2 := hlj.symm.trans hli
          injection h2 with h3
          exact absurd h3 hji
        · simp only [Function.update_noteq hk]
          exact hlj
    · intro kk j hl2
      rcases eq_or_ne kk (keys i) with hk | hk
      · subst hk
        simp only [Function.update_same] at hl2
        exact Option.noConfusion hl2
      · simp only [Function.update_noteq hk] at hl2
        obtain ⟨hkj, hold⟩ := g2 kk j hl2
        have hji : j ≠ i := by
          intro he
          subst he
          exact hk hkj.symm
        refine ⟨hkj, ?_⟩
        simp only [Function.update_noteq hji]
        exact hold
  | doubleMissNone ht hc =>
    refine ⟨?_, ?_⟩
    · intro j hj
      rcases eq_or_ne j i with hji | hji
      · subst hji
        exact g1 j (by rw [ht]; trivial)
      · simp only [Function.update_noteq hji] at hj
        exact g1 j hj
    · intro kk j hl2
      obtain ⟨hkj, hold⟩ := g2 kk j hl2
      rcases eq_or_ne j i with hji | hji
      · subst hji
        refine ⟨hkj, ?_⟩
        simp only [Function.update_same]
        trivial
      · exact ⟨hkj, by simp only [Function.update_noteq hji]; exact hold⟩
  | doubleMissCorrupt b ht hc hp =>
    refine ⟨?_, ?_⟩
    · intro j hj
      rcases eq_or_ne j i with hji | hji
      · subst hji
        exact g1 j (by rw [ht]; trivial)
      · simp only [Function.update_noteq hji] at hj
        exact g1 j hj
    · intro kk j hl2
      obtain ⟨hkj, hold⟩ := g2 kk j hl2
      rcases eq_or_ne j i with hji | hji
      · subst hji
        refine ⟨hkj, ?_⟩
        simp only [Function.update_same]
        trivial
      · exact ⟨hkj, by simp only [Function.update_noteq hji]; exact hold⟩
  | fetchStep ht =>
    refine ⟨?_, ?_⟩
    · intro j hj
      rcases eq_or_ne j i with hji | hji
      · subst hji
        exact g1 j (by rw [ht]; trivial)
      · simp only [Function.update_noteq hji] at hj
        exact g1 j hj
    · intro kk j hl2
      obtain ⟨hkj, hold⟩ := g2 kk j hl2
      rcases eq_or_ne j i with hji | hji
      · subst hji
        refine ⟨hkj, ?_⟩
        simp only [Function.update_same]
        trivial
      · exact ⟨hkj, by simp only [Function.update_noteq hji]; exact hold⟩
  | writeStep v ht =>
    refine ⟨?_, ?_⟩
    · intro j hj
      rcases eq_or_ne j i with hji | hji
      · subst hji
        exact g1 j (by rw [ht]; trivial)
      · simp only [Function.update_noteq hji] at hj
        exact g1 j hj
    · intro kk j hl2
      obtain ⟨hkj, hold⟩ := g2 kk j hl2
      rcases eq_or_ne j i with hji | hji
      · subst hji
        refine ⟨hkj, ?_⟩
        simp only [Function.update_same]
        trivial
      · exact ⟨hkj, by simp only [Function.update_noteq hji]; exact hold⟩
  | finish v ht =>
    refine ⟨?_, ?_⟩
    · intro j hj
      rcases eq_or_ne j i with hji | hji
      · subst hji
        simp [Function.update_same, holdsLock] at hj
      · simp only [Function.update_noteq hji] at hj
        have hlj := g1 j hj
        rcases eq_or_ne (keys j) (keys i) with hk | hk
        · have hli := g1 i (by rw [ht]; trivial)
          rw [hk] at hlj
          have h2 := hlj.symm.trans hli
          injection h2 with h3
          exact absurd h3 hji
        · simp only [Function.update_noteq hk]
          exact hlj
    · intro kk j hl2
      rcases eq_or_ne kk (keys i) with hk | hk
      · subst hk
        simp only [Function.update_same] at hl2
        exact Option.noConfusion hl2
      · simp only [Function.update_noteq hk] at hl2
        obtain ⟨hkj, hold⟩ := g2 kk j hl2
        have hji : j ≠ i := by
          intro he
          subst he
          exact hk hkj.symm
        refine ⟨hkj, ?_⟩
        simp only [Function.update_noteq hji]
        exact hold

theorem ginv_reach {N : Nat} {keys : Fin N → String} {fv : String → PyVal}
    {s0 s : CSt N} (h0 : GInv keys s0) (hr : Reach keys fv s0 s) :
    GInv keys s := by
  induction hr with
  | refl => exact h0
  | tail _ hbc ih =>
    obtain ⟨i, hstep⟩ := hbc
    exact ginv_step ih hstep

/-- A task that has not returned is either able to step, or it is parked
at lock acquisition behind a different task of the same key: tasks of
different keys never block each other. -/
theorem canstep_or_blocked {N : Nat} {keys : Fin N → String}
    {fv : String → PyVal} {c0 : String → Option Blob} {s : CSt N} (i : Fin N)
    (hr : Reach keys fv (initSt N c0) s) (hnd : ¬ isDone (s.tasks i)) :
    CanStep keys fv s i ∨ BlockedSameKey keys s i := by
  have inv := ginv_reach (ginv_init N keys c0) hr
  cases ht : s.tasks i with
  | ready =>
    left
    cases hc : s.cache (keys i) with
    | none => exact ⟨_, Step.fastMissNone s i ht hc⟩
    | some b =>
      cases hp : parse b with
      | some v => exact ⟨_, Step.fastHit s i b v ht hc hp⟩
      | none => exact ⟨_, Step.fastMissCorrupt s i b ht hc hp⟩
  | acquiring =>
    cases hl : s.lockHolder (keys i) with
    | none => exact Or.inl ⟨_, Step.acquire s i ht hl⟩
    | some j =>
      right
      obtain ⟨hkj, hold⟩ := inv.g2 (keys i) j hl
      refine ⟨ht, j, ?_, hkj, hl⟩
      intro he
      subst he
      rw [ht] at hold
      simp [holdsLock] at hold
  | locked0 =>
    left
    cases hc : s.cache (keys i) with
    | none => exact ⟨_, Step.doubleMissNone s i ht hc⟩
    | some b =>
      cases hp : parse b with
      | some v => exact ⟨_, Step.doubleHit s i b v ht hc hp⟩
      | none => exact ⟨_, Step.doubleMissCorrupt s i b ht hc hp⟩
  | fetching => exact Or.inl ⟨_, Step.fetchStep s i ht⟩
  | writing v => exact Or.inl ⟨_, Step.writeStep s i v ht⟩
  | wrote v => exact Or.inl ⟨_, Step.finish s i v ht⟩
  | done v =>
    rw [ht] at hnd
    exact absurd trivial hnd

/-- The coalescing guarantee for a single key, for an arbitrary payload:
when every task targets the same initially uncached key and all of them
have returned, the upstream fetcher ran exactly once in the whole process
and every caller returned the fetched payload or its JSON round-trip
image; when the payload is JSON-native those coincide, so every caller
returned exactly the payload. -/
theorem coalesced_final {N : Nat} {k : String} {keys : Fin N → String}
    {fv : String → PyVal} {c0 : String → Option Blob} {s : CSt N}
    (hN : 0 < N) (hkeys : ∀ j, keys j = k) (hc0 : c0 k = none)
    (hr : Reach keys fv (initSt N c0) s) (hall : AllDone s) :
    s.count = Function.update (fun _ => 0) k 1 ∧
      (∀ i, s.tasks i = TState.done (fv k) ∨
        s.tasks i = TState.done (jsonRoundTrip (fv k))) ∧
      (jsonNative (fv k) = true → s.tasks = fun _ => TState.done (fv k)) := by
  have inv := invK_reach hkeys (invK_init N k fv c0 hc0) hr
  have hcnt : s.count k = 1 := by
    rcases inv.phase with ⟨h0, hcn, hpre2⟩ | ⟨h1, hd⟩
    · exfalso
      have hp0 := hpre2 ⟨0, hN⟩
      have hd0 := hall ⟨0, hN⟩
      cases hts : s.tasks ⟨0, hN⟩ <;> rw [hts] at hp0 hd0 <;>
        first | exact hd0 | exact hp0
    · exact h1
  have hchar : ∀ j, s.tasks j = TState.done (fv k) ∨
      s.tasks j = TState.done (jsonRoundTrip (fv k)) := by
    intro j
    have hdj := hall j
    cases htj : s.tasks j with
    | done v =>
      rcases inv.doneVal j v htj with hv | hv
      · left
        rw [hv]
      · right
        rw [hv]
    | ready => rw [htj] at hdj; exact hdj.elim
    | acquiring => rw [htj] at hdj; exact hdj.elim
    | locked0 => rw [htj] at hdj; exact hdj.elim
    | fetching => rw [htj] at hdj; exact hdj.elim
    | writing v => rw [htj] at hdj; exact hdj.elim
    | wrote v => rw [htj] at hdj; exact hdj.elim
  refine ⟨?_, hchar, ?_⟩
  · funext kk
    rcases eq_or_ne kk k with hkk | hkk
    · subst hkk
      rw [Function.update_same]
      exact hcnt
    · rw [Function.update_noteq hkk]
      exact inv.otherCount kk hkk
  · intro hnat
    funext j
    rcases hchar j with hv | hv
    · exact hv
    · rw [hv, jsonRoundTrip_id (fv k) hnat]

/-- Claim C1 as amended: for N concurrent fetch_showcase calls on the same
initially uncached key whose upstream fetch succeeds, every cooperative
interleaving that runs all callers to completion invokes the upstream
fetcher exactly once (and zero times for every other key), and every
caller returns the fetched payload up to JSON round-tripping — each
returned value is the payload itself or its round-trip image, and when the
payload is JSON-native every caller returns exactly that payload; moreover
in any reachable state of any mix of keys, a caller that has not returned
can always take a step unless it is waiting at lock acquisition behind a
caller for the same key, so calls for different keys never block each
other. -/
theorem claim1_coalescing :
    (∀ (N : Nat) (k : String) (keys : Fin N → String) (fv : String → PyVal)
        (c0 : String → Option Blob) (s : CSt N),
      0 < N → (∀ j, keys j = k) → c0 k = none →
      Reach keys fv (initSt N c0) s → AllDone s →
      s.count = Function.update (fun _ => 0) k 1 ∧
        (∀ i, s.tasks i = TState.done (fv k) ∨
          s.tasks i = TState.done (jsonRoundTrip (fv k))) ∧
        (jsonNative (fv k) = true → s.tasks = fun _ => TState.done (fv k))) ∧
    (∀ (N : Nat) (keys : Fin N → String) (fv : String → PyVal)
        (c0 : String → Option Blob) (s : CSt N) (i : Fin N),
      Reach keys fv (initSt N c0) s → ¬ isDone (s.tasks i) →
      CanStep keys fv s i ∨ BlockedSameKey keys s i) :=
  ⟨fun _ _ _ _ _ _ hN hkeys hc0 hr hall =>
      coalesced_final hN hkeys hc0 hr hall,
    fun _ _ _ _ _ i hr hnd => canstep_or_blocked i hr hnd⟩

/-! A concrete full run of one task on the uncached key gi with a
JSON-native payload, for the C1 witness. -/

def wKeys : Fin 1 → String := fun _ => "gi"

def wFv : String → PyVal := fun _ => .vnull

def wC0 : String → Option Blob := fun _ => none

def wS0 : CSt 1 := initSt 1 wC0

def wS1 : CSt 1 := { wS0 with tasks := Function.update wS0.tasks 0 .acquiring }

def wS2 : CSt 1 :=
  { wS1 with
    lockHolder := Function.update wS1.lockHolder "gi" (some 0),
    tasks := Function.update wS1.tasks 0 .locked0 }

def wS3 : CSt 1 := { wS2 with tasks := Function.update wS2.tasks 0 .fetching }

def wS4 : CSt 1 :=
  { wS3 with
    count := Function.update wS3.count "gi" 1,
    tasks := Function.update wS3.tasks 0 (.writing .vnull) }

def wS5 : CSt 1 :=
  { wS4 with
    cache := Function.update wS4.cache "gi" (some (.ser .vnull)),
    tasks := Function.update wS4.tasks 0 (.wrote .vnull) }

def wS6 : CSt 1 :=
  { wS5 with
    lockHolder := Function.update wS5.lockHolder "gi" none,
    tasks := Function.update wS5.tasks 0 (.done .vnull) }

/-- Witness for C1 as amended, at a concrete complete one-task run on the
uncached key gi: the fetch count is one for gi and zero elsewhere, the
caller returned the payload or its round-trip image, and the payload being
JSON-native, the caller returned exactly the payload. -/
theorem claim1_witness :
    wS6.count = Function.update (fun _ => 0) "gi" 1 ∧
      (∀ i, wS6.tasks i = TState.done (wFv "gi") ∨
        wS6.tasks i = TState.done (jsonRoundTrip (wFv "gi"))) ∧
      (jsonNative (wFv "gi") = true →
        wS6.tasks = fun _ => TState.done (wFv "gi")) := by
  have s1 : Step wKeys wFv wS0 0 wS1 := Step.fastMissNone wS0 0 rfl rfl
  have s2 : Step wKeys wFv wS1 0 wS2 := Step.acquire wS1 0 rfl rfl
  have s3 : Step wKeys wFv wS2 0 wS3 := Step.doubleMissNone wS2 0 rfl rfl
  have s4 : Step wKeys wFv wS3 0 wS4 := Step.fetchStep wS3 0 rfl
  have s5 : Step wKeys wFv wS4 0 wS5 := Step.writeStep wS4 0 .vnull rfl
  have s6 : Step wKeys wFv wS5 0 wS6 := Step.finish wS5 0 .vnull rfl
  have hreach : Reach wKeys wFv (initSt 1 wC0) wS6 :=
    .tail (.tail (.tail (.tail (.tail (.tail .refl ⟨0, s1⟩) ⟨0, s2⟩)
      ⟨0, s3⟩) ⟨0, s4⟩) ⟨0, s5⟩) ⟨0, s6⟩
  have hall : AllDone wS6 := by
    intro i
    rw [Subsingleton.elim i 0]
    exact trivial
  exact claim1_coalescing.1 1 "gi" wKeys wFv wC0 wS6 Nat.one_pos
    (fun _ => rfl) rfl hreach hall

/-! A concrete complete interleaving of two tasks on the same uncached key
gi with a datetime payload, for the C1 counterexample: task 0 performs the
fetch and returns the original payload, task 1 coalesces onto the cache
write and returns its JSON round-trip, a structurally different value. -/

def xKeys : Fin 2 → String := fun _ => "gi"

def xFv : String → PyVal := fun _ => .vdatetime "2024-01-01"

def xC0 : String → Option Blob := fun _ => none

def xS0 : CSt 2 := initSt 2 xC0

def xS1 : CSt 2 := { xS0 with tasks := Function.update xS0.tasks 0 .acquiring }

def xS2 : CSt 2 := { xS1 with tasks := Function.update xS1.tasks 1 .acquiring }

def xS3 : CSt 2 :=
  { xS2 with
    lockHolder := Function.update xS2.lockHolder "gi" (some 0),
    tasks := Function.update xS2.tasks 0 .locked0 }

def xS4 : CSt 2 := { xS3 with tasks := Function.update xS3.tasks 0 .fetching }

def xS5 : CSt 2 :=
  { xS4 with
    count := Function.update xS4.count "gi" 1,
    tasks := Function.update xS4.tasks 0 (.writing (.vdatetime "2024-01-01")) }

def xS6 : CSt 2 :=
  { xS5 with
    cache := Function.update xS5.cache "gi" (some (.ser (.vstr "2024-01-01"))),
    tasks := Function.update xS5.tasks 0 (.wrote (.vdatetime "2024-01-01")) }

def xS7 : CSt 2 :=
  { xS6 with
    lockHolder := Function.update xS6.lockHolder "gi" none,
    tasks := Function.update xS6.tasks 0 (.done (.vdatetime "2024-01-01")) }

def xS8 : CSt 2 :=
  { xS7 with
    lockHolder := Function.update xS7.lockHolder "gi" (some 1),
    tasks := Function.update xS7.tasks 1 .locked0 }

def xS9 : CSt 2 :=
  { xS8 with
    lockHolder := Function.update xS8.lockHolder "gi" none,
    tasks := Function.update xS8.tasks 1 (.done (.vstr "2024-01-01")) }

/-- Counterexample for C1: a complete two-caller interleaving on the same
uncached key in which the upstream fetcher runs exactly once, yet the two
callers receive structurally different values (the fetching caller gets
the datetime payload, the coalesced caller its JSON round-trip), refuting
the claim that all N callers receive the same resulting value. -/
theorem claim1_counterexample :
    Reach xKeys xFv (initSt 2 xC0) xS9 ∧ AllDone xS9 ∧
    xS9.count "gi" = 1 ∧
    xS9.tasks 0 = TState.done (.vdatetime "2024-01-01") ∧
    xS9.tasks 1 = TState.done (.vstr "2024-01-01") ∧
    PyVal.vdatetime "2024-01-01" ≠ PyVal.vstr "2024-01-01" := by
  refine ⟨?_, ?_, rfl, rfl, rfl, fun h => PyVal.noConfusion h⟩
  · have s1 : Step xKeys xFv xS0 0 xS1 := Step.fastMissNone xS0 0 rfl rfl
    have s2 : Step xKeys xFv xS1 1 xS2 := Step.fastMissNone xS1 1 rfl rfl
    have s3 : Step xKeys xFv xS2 0 xS3 := Step.acquire xS2 0 rfl rfl
    have s4 : Step xKeys xFv xS3 0 xS4 := Step.doubleMissNone xS3 0 rfl rfl
    have s5 : Step xKeys xFv xS4 0 xS5 := Step.fetchStep xS4 0 rfl
    have s6 : Step xKeys xFv xS5 0 xS6 :=
      Step.writeStep xS5 0 (.vdatetime "2024-01-01") rfl
    have s7 : Step xKeys xFv xS6 0 xS7 :=
      Step.finish xS6 0 (.vdatetime "2024-01-01") rfl
    have s8 : Step xKeys xFv xS7 1 xS8 := Step.acquire xS7 1 rfl rfl
    have s9 : Step xKeys xFv xS8 1 xS9 :=
      Step.doubleHit xS8 1 (.ser (.vstr "2024-01-01")) (.vstr "2024-01-01")
        rfl rfl rfl
    exact .tail (.tail (.tail (.tail (.tail (.tail (.tail (.tail (.tail
      .refl ⟨0, s1⟩) ⟨1, s2⟩) ⟨0, s3⟩) ⟨0, s4⟩) ⟨0, s5⟩) ⟨0, s6⟩) ⟨0, s7⟩)
      ⟨1, s8⟩) ⟨1, s9⟩
  · intro i
    fin_cases i
    · exact trivial
    · exact trivial

end EnkaBackend
